import Mathlib

/-!
# Verification of the `dill` proc-macro DI code generator

Shallow embedding of `src/impl/src/lib.rs`, the procedural macro that, for
every component, generates a builder type implementing the `Builder` /
`TypedBuilder` contracts of the `dill` runtime.

Two layers are modelled:

* the *syntactic* layer: the subset of `syn::Type` that the macro inspects,
  and the classification functions `is_reference`, `strip_reference`,
  `is_smart_ptr`, `strip_smart_ptr`, together with the code-shape decisions
  taken by `implement_arg` (which pieces of code are emitted per argument);
* the *semantic* layer: the run-time behaviour of the generated code
  (`build`, the typed `get`, the type-erased `get`, the override setters),
  modelled as Lean functions over an abstract instance domain.

The runtime crate (`Catalog`, the `Scope` implementations, the error enum's
exact payloads) is not part of these sources — only the macro is.  Where a
claim depends on that missing runtime, the corresponding definition is
modelled from the spec and carries a doc comment saying so.
-/

set_option autoImplicit false

namespace Dill

/-! ## Syntactic layer: the subset of `syn::Type` inspected by the macro -/

mutual

/-- The shapes of `syn::Type` that `implement_arg` distinguishes:
a reference `&X` (`syn::Type::Reference`), a path type possibly with a
qualified self (`syn::Type::Path`), and anything else (tagged so that
distinct "other" types stay distinct). -/
inductive RustType : Type where
  | reference (elem : RustType) : RustType
  | path (hasQself : Bool) (segments : SegList) : RustType
  | other (tag : Nat) : RustType

/-- A list of path segments (`syn::Path.segments`). -/
inductive SegList : Type where
  | nil : SegList
  | cons (seg : PathSeg) (rest : SegList) : SegList

/-- One path segment: an identifier plus its generic arguments
(`syn::PathSegment`). -/
inductive PathSeg : Type where
  | mk (ident : String) (args : PathArgs) : PathSeg

/-- The generic arguments of a path segment (`syn::PathArguments`): either
none or a single angle-bracketed type argument (the macro parses the
argument list back into one `syn::Type`). -/
inductive PathArgs : Type where
  | noArgs : PathArgs
  | angleBracketed (arg : RustType) : PathArgs

end

/-- `fn is_reference(typ: &syn::Type) -> bool` (src/impl/src/lib.rs:316). -/
def is_reference : RustType → Bool
  | .reference _ => true
  | _ => false

/-- `fn strip_reference(typ: &syn::Type) -> syn::Type`
(src/impl/src/lib.rs:323). -/
def strip_reference : RustType → RustType
  | .reference r => r
  | t => t

/-- `fn is_smart_ptr(typ: &syn::Type) -> bool` (src/impl/src/lib.rs:330):
a path type with no qualified self whose *first* segment's identifier is
literally `Arc`. -/
def is_smart_ptr : RustType → Bool
  | .path false (.cons (.mk ident _) _) => ident == "Arc"
  | _ => false

/-- `fn strip_smart_ptr(typ: &syn::Type) -> syn::Type`
(src/impl/src/lib.rs:342): for a no-qself path whose first segment is `Arc`
with angle-bracketed arguments, the parsed argument type; otherwise the
type unchanged. -/
def strip_smart_ptr : RustType → RustType
  | .path false (.cons (.mk ident args) rest) =>
    if ident == "Arc" then
      match args with
      | .angleBracketed a => a
      | .noArgs => .path false (.cons (.mk ident args) rest)
    else .path false (.cons (.mk ident args) rest)
  | t => t

/-- The plain `Arc<X>` type: one segment named `Arc` carrying `X`. -/
def arcOf (x : RustType) : RustType :=
  .path false (.cons (.mk "Arc" (.angleBracketed x)) .nil)

/-- The fully qualified `std::sync::Arc<X>` type: first segment `std`,
then `sync`, then `Arc` carrying `X`. -/
def stdSyncArcOf (x : RustType) : RustType :=
  .path false
    (.cons (.mk "std" .noArgs)
      (.cons (.mk "sync" .noArgs)
        (.cons (.mk "Arc" (.angleBracketed x)) .nil)))

/-! ## Code-shape decisions of `implement_arg` (src/impl/src/lib.rs:203) -/

/-- The catalog-sourcing expression emitted for an argument
(the `from_catalog` local of `implement_arg`, src/impl/src/lib.rs:251):
either `cat.get::<OneOf<lookup>>()?` keeping the shared handle, or
`cat.get::<OneOf<lookup>>().map(|v| v.as_ref().clone())?` cloning an owned
copy out of the handle. -/
inductive FromCatalog : Type where
  | getHandle (lookup : RustType) : FromCatalog
  | getClone (lookup : RustType) : FromCatalog

/-- The binding emitted for an argument
(the `prepare_dependency` local of `implement_arg`,
src/impl/src/lib.rs:261): references always use the catalog expression;
every other argument first consults the `arg_<name>_fn` override slot and
falls back to the catalog expression. -/
inductive PrepareKind : Type where
  | alwaysCatalog : PrepareKind
  | overrideThenCatalog : PrepareKind

/-- How the prepared value is passed to the constructor
(the `provide_dependency` local of `implement_arg`,
src/impl/src/lib.rs:272): references pass `name.as_ref()`, a borrow of the
resolved handle for the duration of the constructor call; everything else
passes the value itself. -/
inductive ProvideKind : Type where
  | asRef : ProvideKind
  | value : ProvideKind

/-- `from_catalog` of `implement_arg` (src/impl/src/lib.rs:251-259). -/
def from_catalog (typ : RustType) : FromCatalog :=
  if is_reference typ then .getHandle (strip_reference typ)
  else if is_smart_ptr typ then .getHandle (strip_smart_ptr typ)
  else .getClone typ

/-- `prepare_dependency` of `implement_arg` (src/impl/src/lib.rs:261-270). -/
def prepare_dependency_kind (typ : RustType) : PrepareKind :=
  if is_reference typ then .alwaysCatalog else .overrideThenCatalog

/-- `provide_dependency` of `implement_arg` (src/impl/src/lib.rs:272-276). -/
def provide_dependency_kind (typ : RustType) : ProvideKind :=
  if is_reference typ then .asRef else .value

/-- Whether the builder struct holds an `arg_<name>_fn` override field for
this argument (`override_fn_field`, src/impl/src/lib.rs:216-222: an empty
token stream for references). -/
def override_fn_field_present (typ : RustType) : Bool :=
  if is_reference typ then false else true

/-- Whether the builder constructor initialises an override field for this
argument (`override_fn_field_ctor`, src/impl/src/lib.rs:224-228). -/
def override_fn_field_ctor_present (typ : RustType) : Bool :=
  if is_reference typ then false else true

/-- Whether the `with_<name>` / `with_<name>_fn` setters are generated for
this argument (`override_setters`, src/impl/src/lib.rs:230-249: an empty
token stream for references). -/
def override_setters_present (typ : RustType) : Bool :=
  if is_reference typ then false else true

/-- The five per-argument code pieces returned by `implement_arg`
(src/impl/src/lib.rs:203-285), abstracted to their decision content. -/
structure ArgCodegen : Type where
  override_fn_field : Bool
  override_fn_field_ctor : Bool
  override_setters : Bool
  fromCatalog : FromCatalog
  prepare : PrepareKind
  provide : ProvideKind

/-- `fn implement_arg(name, typ, builder)` (src/impl/src/lib.rs:203),
restricted to the decisions that depend on the argument type. -/
def implement_arg (typ : RustType) : ArgCodegen :=
  { override_fn_field := override_fn_field_present typ
    override_fn_field_ctor := override_fn_field_ctor_present typ
    override_setters := override_setters_present typ
    fromCatalog := from_catalog typ
    prepare := prepare_dependency_kind typ
    provide := provide_dependency_kind typ }

/-! ## Semantic layer: behaviour of the generated builder code -/

/-- The runtime error enum.  Its exact payloads live in the runtime crate,
not in these sources; only the variant structure matters here (spec §7). -/
inductive InjectionError : Type where
  | notFound (typeId : Nat) : InjectionError
  | ambiguous (candidates : List Nat) : InjectionError
  | cyclicDependency (typeId : Nat) : InjectionError
  | buildFailure : InjectionError
  | downcastFailure : InjectionError
deriving DecidableEq

/-- The catalog as seen by the generated code: an opaque token that is only
ever threaded into `cat.get` calls and override functions (the registry
internals are runtime code, outside these sources). -/
abbrev Catalog : Type := Nat

/-- Value domain for constructed component instances (an identity). -/
abbrev Val : Type := Nat

/-- A type-erased shared handle `Arc<dyn Any + Send + Sync>`: a runtime
type identity plus the underlying instance identity. -/
structure AnyHandle : Type where
  typeId : Nat
  value : Val
deriving DecidableEq

/-- `Arc::downcast::<T>()` on a type-erased handle: succeeds exactly when
the handle's runtime type identity matches the requested one. -/
def downcast (myId : Nat) (h : AnyHandle) : Option AnyHandle :=
  if h.typeId = myId then some h else none

/-- The two scope kinds shipped by the runtime (spec §4.4). -/
inductive ScopeKind : Type where
  | transient : ScopeKind
  | singleton : ScopeKind
deriving DecidableEq

/-- Modelled from the spec: the `Scope` implementations (`Transient`,
`Singleton`) live in the runtime crate, not in these sources.  Spec §4.4:
a Transient scope behaviourally always reports "no cached instance" and
never stores one; a Singleton scope holds at most one cached handle. -/
structure ScopeState : Type where
  kind : ScopeKind
  cached : Option AnyHandle
deriving DecidableEq

/-- Modelled from the spec: `Scope::get` (spec §4.4).  Transient scopes
always report no cached instance; Singleton scopes report their cache. -/
def scopeGet (s : ScopeState) : Option AnyHandle :=
  match s.kind with
  | .transient => none
  | .singleton => s.cached

/-- Modelled from the spec: `Scope::set` (spec §3, §4.4).  Transient scopes
never store; a Singleton scope, once populated, never replaces its cached
instance, so `set` publishes only into an empty scope. -/
def scopeSet (s : ScopeState) (h : AnyHandle) : ScopeState :=
  match s.kind with
  | .transient => s
  | .singleton =>
    match s.cached with
    | some _ => s
    | none => { s with cached := some h }

/-- One generated `let <name> = ...;` prepare step for a non-reference
argument (src/impl/src/lib.rs:264-269):

    let name = match self.arg_name_fn {
        Some(ref fun) => fun(cat)?,
        _ => /* from_catalog: cat.get::<OneOf<..>>() ... */,
    };

The second component counts how many times the `cat.get` catalog-lookup
expression for this slot is evaluated. -/
def prepareDependency {α : Type} (ov : Option (Catalog → Except InjectionError α))
    (catGet : Catalog → Except InjectionError α) (cat : Catalog) :
    Except InjectionError α × Nat :=
  match ov with
  | some f => (f cat, 0)
  | none => (catGet cat, 1)

/-- The sequence of `let <name> = ...?;` bindings at the head of the
generated `build` (src/impl/src/lib.rs:164-166): arguments are resolved in
declaration order and the first failure aborts with that error. -/
def resolveArgs : List (Catalog → Except InjectionError Val) → Catalog →
    Except InjectionError (List Val)
  | [], _ => .ok []
  | p :: ps, cat =>
    match p cat with
    | .error e => .error e
    | .ok v =>
      match resolveArgs ps cat with
      | .error e => .error e
      | .ok vs => .ok (v :: vs)

/-- The generated `fn build(&self, cat) -> Result<T, InjectionError>`
(src/impl/src/lib.rs:164-167): resolve every argument, then — only on
success — invoke the component constructor on the resolved values. -/
def buildImpl (preps : List (Catalog → Except InjectionError Val))
    (ctor : List Val → Val) (cat : Catalog) : Except InjectionError Val :=
  match resolveArgs preps cat with
  | .error e => .error e
  | .ok vs => .ok (ctor vs)

/-- Outcome of a generated `get`: a value, a propagated error, or a Rust
panic (the `.unwrap()` on a failed downcast aborts instead of returning). -/
inductive GetOutcome (α : Type) : Type where
  | ok (a : α) : GetOutcome α
  | err (e : InjectionError) : GetOutcome α
  | panicked : GetOutcome α
deriving DecidableEq

/-- The generated typed `TypedBuilder::<T>::get` (src/impl/src/lib.rs:185-196):

    if let Some(inst) = self.scope.get() {
        return Ok(inst.downcast().unwrap());
    }
    let inst = std::sync::Arc::new(self.build(cat)?);
    self.scope.set(inst.clone());
    Ok(inst)

Returns the outcome, the scope state after the call, and the number of
times `self.build` was invoked. -/
def typedGet (myId : Nat) (build : Catalog → Except InjectionError Val)
    (cat : Catalog) (s : ScopeState) : GetOutcome AnyHandle × ScopeState × Nat :=
  match scopeGet s with
  | some inst =>
    match downcast myId inst with
    | some h => (.ok h, s, 0)
    | none => (.panicked, s, 0)
  | none =>
    match build cat with
    | .error e => (.err e, s, 1)
    | .ok v =>
      let inst : AnyHandle := ⟨myId, v⟩
      (.ok inst, scopeSet s inst, 1)

/-- The generated type-erased `Builder::get` (src/impl/src/lib.rs:179-181):
`Ok(::dill::TypedBuilder::get(self, cat)?)` — it forwards to the typed
`get` and re-wraps the typed handle as `Arc<dyn Any + Send + Sync>` by a
safe unsizing coercion (never an unchecked cast). -/
def erasedGet (myId : Nat) (build : Catalog → Except InjectionError Val)
    (cat : Catalog) (s : ScopeState) : GetOutcome AnyHandle × ScopeState × Nat :=
  typedGet myId build cat s

/-- The generated `get` with the generated `build` plugged in: the full
resolution path of one component. -/
def generatedGet (myId : Nat) (preps : List (Catalog → Except InjectionError Val))
    (ctor : List Val → Val) (cat : Catalog) (s : ScopeState) :
    GetOutcome AnyHandle × ScopeState × Nat :=
  typedGet myId (buildImpl preps ctor) cat s

/-! ## Override slot of the generated builder -/

/-- The single `arg_<name>_fn` override slot the builder struct holds for
one non-reference argument (src/impl/src/lib.rs:219-221):
`Option<Box<dyn Fn(&Catalog) -> Result<T, InjectionError>>>`. -/
structure ArgSlot (α : Type) : Type where
  arg_fn : Option (Catalog → Except InjectionError α)

/-- The generated value setter `with_<name>` (src/impl/src/lib.rs:236-239):
stores `Some(Box::new(move |_| Ok(val.clone())))` into the slot
(cloning a pure value is modelled as the value itself). -/
def with_val {α : Type} (val : α) (b : ArgSlot α) : ArgSlot α :=
  { b with arg_fn := some (fun _ => .ok val) }

/-- The generated function setter `with_<name>_fn`
(src/impl/src/lib.rs:241-247): stores `Some(Box::new(fun))` into the slot. -/
def with_fn {α : Type} (f : Catalog → Except InjectionError α) (b : ArgSlot α) :
    ArgSlot α :=
  { b with arg_fn := some f }

/-! ## Interleaving model of two threads racing through the typed `get`

The generated typed `get` touches shared state exactly twice: the
`self.scope.get()` read (src/impl/src/lib.rs:188) and the
`self.scope.set(..)` write (src/impl/src/lib.rs:194); `self.build(cat)` is
thread-local.  Each scope operation is one atomic step (spec §9: the scope
cache is a mutex-guarded cell).  A thread whose construction succeeds with
a fresh instance value `fresh` therefore behaves as: read the scope; on a
hit, finish with the downcast cached handle; on a miss, build locally, then
atomically publish and finish with its own instance. -/

/-- Per-thread state: `pc = 0` before the scope read, `pc = 1` after a
missed read (holding the locally built instance), `pc = 2` finished. -/
structure ThreadSt : Type where
  pc : Nat
  localInst : Option AnyHandle
  result : Option (GetOutcome AnyHandle)
deriving DecidableEq

/-- A thread at the start of the typed `get`. -/
def initThread : ThreadSt := ⟨0, none, none⟩

/-- One atomic step of a thread running the generated typed `get`
(src/impl/src/lib.rs:185-196), whose own construction yields the fresh
instance value `fresh`. -/
def threadStep (myId fresh : Nat) (scope : ScopeState) (t : ThreadSt) :
    ScopeState × ThreadSt :=
  match t.pc with
  | 0 =>
    match scopeGet scope with
    | some c =>
      match downcast myId c with
      | some h => (scope, { t with pc := 2, result := some (.ok h) })
      | none => (scope, { t with pc := 2, result := some .panicked })
    | none => (scope, { t with pc := 1, localInst := some ⟨myId, fresh⟩ })
  | 1 =>
    match t.localInst with
    | some inst => (scopeSet scope inst, { t with pc := 2, result := some (.ok inst) })
    | none => (scope, { t with pc := 2 })
  | _ => (scope, t)

/-- Whole-system state of the two-thread race. -/
structure RaceState : Type where
  scope : ScopeState
  th1 : ThreadSt
  th2 : ThreadSt
deriving DecidableEq

/-- Initial race state: an empty Singleton scope, both threads at the top
of the typed `get`. -/
def raceInit : RaceState := ⟨⟨.singleton, none⟩, initThread, initThread⟩

/-- Schedule one atomic step of the chosen thread (`false` = thread 1,
`true` = thread 2); threads that already finished do nothing. -/
def raceStep (myId f1 f2 : Nat) (s : RaceState) : Bool → RaceState
  | false =>
    let p := threadStep myId f1 s.scope s.th1
    ⟨p.1, p.2, s.th2⟩
  | true =>
    let p := threadStep myId f2 s.scope s.th2
    ⟨p.1, s.th1, p.2⟩

/-- Run the race under an arbitrary interleaving schedule. -/
def raceRun (myId f1 f2 : Nat) : List Bool → RaceState → RaceState
  | [], s => s
  | i :: rest, s => raceRun myId f1 f2 rest (raceStep myId f1 f2 s i)

/-! ## Spec-modelled resolution engine with cycle tracking

Modelled from the spec: `Catalog::get` and the recursive resolution engine
are runtime code, not part of these sources (the macro only emits the
per-component builders that the engine calls back into).  Spec §4.1, §5 and
§7: resolution looks up the unique producer for the requested type id
(`NotFound` on zero matches, `Ambiguous` on several), recurses into the
producer's dependency list, and guards against unbounded recursion by
tracking the in-progress resolution stack, failing with `CyclicDependency`
when it re-enters a type already on that stack.  Scope caching is immaterial
to cycle detection and omitted here. -/

/-- A registry for the resolution model: each producer is its instance type
id together with the type ids of its constructor dependencies. -/
structure CatalogModel : Type where
  producers : List (Nat × List Nat)
deriving DecidableEq

/-- The registered type ids of a catalog model. -/
def CatalogModel.ids (c : CatalogModel) : List Nat :=
  c.producers.map Prod.fst

/-- How many registered type ids are not yet on the in-progress stack;
the termination measure of the resolution engine. -/
def remaining (c : CatalogModel) (stack : List Nat) : Nat :=
  (c.ids.filter (fun x => decide (x ∉ stack))).length

theorem filter_not_mem_cons_lt (stack : List Nat) (t : Nat) (hstk : t ∉ stack) :
    ∀ l : List Nat, t ∈ l →
      (l.filter (fun x => decide (x ∉ t :: stack))).length <
        (l.filter (fun x => decide (x ∉ stack))).length := by
  intro l hmem
  induction l with
  | nil => cases hmem
  | cons x xs ih =>
    have hmono : ∀ a : Nat, decide (a ∉ t :: stack) = true →
        decide (a ∉ stack) = true := by
      intro a ha
      simp only [decide_eq_true_eq, List.mem_cons, not_or] at ha ⊢
      exact ha.2
    have hle : (xs.filter (fun x => decide (x ∉ t :: stack))).length ≤
        (xs.filter (fun x => decide (x ∉ stack))).length :=
      (List.monotone_filter_right xs hmono).length_le
    rcases List.mem_cons.mp hmem with rfl | hx
    · have h1 : decide (t ∉ t :: stack) = false := by
        rw [decide_eq_false_iff_not]
        exact not_not_intro (List.mem_cons_self t stack)
      have h2 : decide (t ∉ stack) = true := by
        rw [decide_eq_true_eq]
        exact hstk
      rw [List.filter_cons, List.filter_cons, h1, h2]
      simp only [Bool.false_eq_true, if_false, if_true, List.length_cons]
      omega
    · have hlt := ih hx
      by_cases hx1 : x ∈ t :: stack
      · have h1 : decide (x ∉ t :: stack) = false := by
          rw [decide_eq_false_iff_not]
          exact not_not_intro hx1
        by_cases hx2 : x ∈ stack
        · have h2 : decide (x ∉ stack) = false := by
            rw [decide_eq_false_iff_not]
            exact not_not_intro hx2
          rw [List.filter_cons, List.filter_cons, h1, h2]
          simp only [Bool.false_eq_true, if_false]
          exact hlt
        · have h2 : decide (x ∉ stack) = true := by
            rw [decide_eq_true_eq]
            exact hx2
          rw [List.filter_cons, List.filter_cons, h1, h2]
          simp only [Bool.false_eq_true, if_false, if_true, List.length_cons]
          omega
      · have h1 : decide (x ∉ t :: stack) = true := by
          rw [decide_eq_true_eq]
          exact hx1
        have hx2 : x ∉ stack := fun hc => hx1 (List.mem_cons_of_mem _ hc)
        have h2 : decide (x ∉ stack) = true := by
          rw [decide_eq_true_eq]
          exact hx2
        rw [List.filter_cons, List.filter_cons, h1, h2]
        simp only [if_true, List.length_cons]
        omega

theorem remaining_cons_lt (c : CatalogModel) (stack : List Nat) (t : Nat)
    (hmem : t ∈ c.ids) (hstk : t ∉ stack) :
    remaining c (t :: stack) < remaining c stack :=
  filter_not_mem_cons_lt stack t hstk c.ids hmem

/-- Producer lookup for a requested type id (spec §4.1): all producers whose
advertised instance type matches. -/
def CatalogModel.matching (c : CatalogModel) (t : Nat) : List (Nat × List Nat) :=
  c.producers.filter (fun p => decide (p.1 = t))

theorem mem_ids_of_matching (c : CatalogModel) (t : Nat) (p : Nat × List Nat)
    (h : p ∈ c.matching t) : t ∈ c.ids := by
  unfold CatalogModel.matching at h
  have h1 := List.of_mem_filter h
  have h2 := List.mem_of_mem_filter h
  simp only [decide_eq_true_eq] at h1
  subst h1
  exact List.mem_map_of_mem Prod.fst h2

mutual

/-- Modelled from the spec: resolution of one requested type id with an
in-progress stack (spec §4.1, §5, §7).  Re-entry of a type already on the
stack fails with `CyclicDependency`; zero registered producers fail with
`NotFound`; several fail with `Ambiguous`; otherwise the unique producer's
dependencies are resolved with the requested type pushed onto the stack.
Structural termination (no unbounded recursion) is witnessed by the
strictly decreasing count of registered ids not yet on the stack. -/
def resolve (c : CatalogModel) (stack : List Nat) (t : Nat) :
    Except InjectionError Unit :=
  if hstk : t ∈ stack then .error (.cyclicDependency t)
  else
    match hm : c.matching t with
    | [] => .error (.notFound t)
    | [p] =>
      have hmem : t ∈ c.ids :=
        mem_ids_of_matching c t p (by rw [hm]; exact List.mem_singleton_self p)
      resolveDeps c (t :: stack) p.2
    | _ :: _ :: _ => .error (.ambiguous (c.matching t).unzip.1)
termination_by (remaining c stack, 0)
decreasing_by
  exact Prod.Lex.left _ _ (remaining_cons_lt c stack t hmem hstk)

/-- Modelled from the spec: resolve a producer's dependency list in order,
aborting on the first failure (spec §4.3). -/
def resolveDeps (c : CatalogModel) (stack : List Nat) :
    List Nat → Except InjectionError Unit
  | [] => .ok ()
  | d :: ds =>
    match resolve c stack d with
    | .error e => .error e
    | .ok _ => resolveDeps c stack ds
termination_by ds => (remaining c stack, ds.length + 1)
decreasing_by
  · simp_wf
    exact Prod.Lex.right _ (Nat.zero_lt_succ _)
  · simp_wf
    exact Prod.Lex.right _ (Nat.lt_succ_self _)

end

/-! ## Shared lemmas -/

theorem typedGet_of_cached (myId : Nat) (build : Catalog → Except InjectionError Val)
    (cat : Catalog) (s : ScopeState) (inst : AnyHandle)
    (hs : scopeGet s = some inst) (hid : inst.typeId = myId) :
    typedGet myId build cat s = (.ok inst, s, 0) := by
  unfold typedGet downcast
  rw [hs]
  simp [hid]

theorem resolveArgs_error_of_mem (preps : List (Catalog → Except InjectionError Val))
    (cat : Catalog) (p : Catalog → Except InjectionError Val) (e : InjectionError)
    (hp : p ∈ preps) (hpe : p cat = .error e) :
    ∃ e2, resolveArgs preps cat = .error e2 := by
  induction preps with
  | nil => cases hp
  | cons q qs ih =>
    cases hq0 : q cat with
    | error e0 => exact ⟨e0, by simp [resolveArgs, hq0]⟩
    | ok v =>
      rcases List.mem_cons.mp hp with rfl | hq
      · simp [hpe] at hq0
      · obtain ⟨e1, he1⟩ := ih hq
        exact ⟨e1, by simp [resolveArgs, hq0, he1]⟩

/-! ## Claims -/

/-- C2: for every non-reference constructor argument with an override set,
construction evaluates the stored override function and performs no catalog
lookup for that slot (zero `cat.get` evaluations); with no override set, the
argument is sourced from the catalog (one `cat.get` evaluation). -/
theorem override_supersedes_catalog_lookup {α : Type}
    (f : Catalog → Except InjectionError α)
    (catGet : Catalog → Except InjectionError α) (cat : Catalog) :
    prepareDependency (some f) catGet cat = (f cat, 0) ∧
    prepareDependency (none : Option (Catalog → Except InjectionError α)) catGet cat
      = (catGet cat, 1) :=
  ⟨rfl, rfl⟩

theorem override_supersedes_catalog_lookup_witness :
    prepareDependency (some fun _ => Except.ok (3 : Nat)) (fun _ => Except.ok 9) 0
      = (Except.ok 3, 0) ∧
    prepareDependency (none : Option (Catalog → Except InjectionError Nat))
      (fun _ => Except.ok 9) 0 = (Except.ok 9, 1) :=
  override_supersedes_catalog_lookup (fun _ => Except.ok 3) (fun _ => Except.ok 9) 0

/-- C3: the syntactic shape of a declared constructor argument determines
its resolution strategy: `&X` resolves via a catalog lookup for `X` and is
passed as a borrow (`as_ref`) for the constructor call; `Arc<X>` resolves
via a catalog lookup for `X` and keeps the shared handle itself; any other
type `X` resolves via a catalog lookup for `X` and clones an independent
owned copy out of the returned handle. -/
theorem arg_shape_determines_strategy (x t : RustType) :
    (from_catalog (.reference x) = .getHandle x ∧
      provide_dependency_kind (.reference x) = .asRef) ∧
    (from_catalog (arcOf x) = .getHandle x ∧
      provide_dependency_kind (arcOf x) = .value) ∧
    (is_reference t = false → is_smart_ptr t = false →
      from_catalog t = .getClone t ∧ provide_dependency_kind t = .value) := by
  refine ⟨⟨rfl, rfl⟩, ⟨rfl, rfl⟩, fun h1 h2 => ⟨?_, ?_⟩⟩
  · simp [from_catalog, h1, h2]
  · simp [provide_dependency_kind, h1]

theorem arg_shape_determines_strategy_witness :
    from_catalog (.other 1) = .getClone (.other 1) ∧
    provide_dependency_kind (.other 1) = .value :=
  (arg_shape_determines_strategy (.other 0) (.other 1)).2.2 rfl rfl

/-- C4: if the scope reports a cached instance at the start of the generated
typed `get`, the call returns that cached instance (as a new shared handle)
with the scope unchanged and zero invocations of the build step — for every
possible build function, so no argument resolution, construction, or scope
mutation can occur on the cache-hit path. -/
theorem cache_hit_returns_cached_without_build (myId : Nat) (cat : Catalog)
    (s : ScopeState) (inst : AnyHandle)
    (hs : scopeGet s = some inst) (hid : inst.typeId = myId) :
    ∀ build : Catalog → Except InjectionError Val,
      typedGet myId build cat s = (.ok inst, s, 0) :=
  fun build => typedGet_of_cached myId build cat s inst hs hid

theorem cache_hit_returns_cached_without_build_witness :
    typedGet 7 (fun _ => Except.error InjectionError.buildFailure) 0
      ⟨ScopeKind.singleton, some ⟨7, 5⟩⟩
      = (.ok ⟨7, 5⟩, ⟨ScopeKind.singleton, some ⟨7, 5⟩⟩, 0) :=
  cache_hit_returns_cached_without_build 7 0 ⟨ScopeKind.singleton, some ⟨7, 5⟩⟩
    ⟨7, 5⟩ rfl rfl (fun _ => Except.error InjectionError.buildFailure)

/-- C5: if any constructor-argument resolution fails, the overall argument
resolution fails, and the generated typed `get` returns that error
unchanged, with the scope unchanged (never populated) — and this holds for
every possible constructor, so the component constructor is never invoked
and no partial object is returned or cached. -/
theorem arg_failure_aborts_without_ctor_or_cache (myId : Nat)
    (preps : List (Catalog → Except InjectionError Val)) (cat : Catalog)
    (s : ScopeState) (hmiss : scopeGet s = none) :
    ((∃ p ∈ preps, ∃ e, p cat = .error e) →
      ∃ e, resolveArgs preps cat = .error e) ∧
    (∀ e, resolveArgs preps cat = .error e →
      ∀ ctor : List Val → Val, generatedGet myId preps ctor cat s = (.err e, s, 1)) := by
  constructor
  · rintro ⟨p, hp, e, hpe⟩
    exact resolveArgs_error_of_mem preps cat p e hp hpe
  · intro e he ctor
    simp [generatedGet, typedGet, buildImpl, hmiss, he]

theorem arg_failure_aborts_witness :
    generatedGet 7 [fun _ => Except.error (InjectionError.notFound 3)]
      (fun _ => 0) 0 ⟨ScopeKind.singleton, none⟩
      = (.err (.notFound 3), ⟨ScopeKind.singleton, none⟩, 1) :=
  (arg_failure_aborts_without_ctor_or_cache 7
      [fun _ => Except.error (InjectionError.notFound 3)] 0
      ⟨ScopeKind.singleton, none⟩ rfl).2
    (.notFound 3) rfl (fun _ => 0)

/-- C6: resolution tracks the in-progress resolution stack and, on
re-entering a type already being resolved, terminates with a
`CyclicDependency` error instead of recursing unboundedly (the resolution
function itself is total, by the strictly decreasing count of registered
types not yet on the stack). -/
theorem cyclic_reentry_fails_with_cyclic_dependency (c : CatalogModel)
    (stack : List Nat) (t : Nat) (h : t ∈ stack) :
    resolve c stack t = .error (.cyclicDependency t) := by
  unfold resolve
  simp [h]

/-- A two-component cyclic configuration: type 1 depends on type 2, which
depends back on type 1. -/
def cyclicCatalog : CatalogModel := ⟨[(1, [2]), (2, [1])]⟩

theorem cyclic_reentry_witness :
    resolve cyclicCatalog [2, 1] 1 = .error (.cyclicDependency 1) :=
  cyclic_reentry_fails_with_cyclic_dependency cyclicCatalog [2, 1] 1
    (by simp)

/-- C7 counterexample: with a cached type-erased handle whose type identity
(2) differs from the builder's declared instance type identity (1), the
generated typed `get` panics (`downcast().unwrap()`); it does not return a
`DowncastFailure` error to the caller, contrary to the claim. -/
theorem downcast_mismatch_not_surfaced_counterexample :
    (typedGet 1 (fun _ => Except.ok 0) 0 ⟨ScopeKind.singleton, some ⟨2, 5⟩⟩).1
      = GetOutcome.panicked ∧
    (typedGet 1 (fun _ => Except.ok 0) 0 ⟨ScopeKind.singleton, some ⟨2, 5⟩⟩).1
      ≠ GetOutcome.err InjectionError.downcastFailure := by
  constructor
  · rfl
  · intro h
    cases h

/-- C7 (amended): the generated type-erased `get` performs a safe erasure by
forwarding to the typed `get`; but a type-identity mismatch between a
cached type-erased handle and the builder's declared instance type causes a
panic (`Result::unwrap` on the failed downcast) rather than being surfaced
to the caller as a `DowncastFailure` error. -/
theorem erased_get_forwards_and_mismatch_panics (myId : Nat)
    (build : Catalog → Except InjectionError Val) (cat : Catalog)
    (s : ScopeState) :
    erasedGet myId build cat s = typedGet myId build cat s ∧
    (∀ inst, scopeGet s = some inst → inst.typeId ≠ myId →
      (typedGet myId build cat s).1 = .panicked) := by
  refine ⟨rfl, fun inst hs hid => ?_⟩
  unfold typedGet downcast
  rw [hs]
  simp [hid]

theorem erased_get_forwards_and_mismatch_panics_witness :
    (typedGet 1 (fun _ => Except.ok (9 : Val)) 0 ⟨ScopeKind.singleton, some ⟨2, 5⟩⟩).1
      = GetOutcome.panicked :=
  (erased_get_forwards_and_mismatch_panics 1 (fun _ => Except.ok 9) 0
      ⟨ScopeKind.singleton, some ⟨2, 5⟩⟩).2 ⟨2, 5⟩ rfl (by decide)

/-- C8: for a reference-typed constructor argument the generated builder
contains no override field, no override-field initialiser, and no setters,
its prepare step always sources the argument from the catalog (resolving
the referenced type), never from an override. -/
theorem reference_args_have_no_override (x : RustType) :
    (implement_arg (.reference x)).override_fn_field = false ∧
    (implement_arg (.reference x)).override_fn_field_ctor = false ∧
    (implement_arg (.reference x)).override_setters = false ∧
    (implement_arg (.reference x)).prepare = .alwaysCatalog ∧
    (implement_arg (.reference x)).fromCatalog = .getHandle x :=
  ⟨rfl, rfl, rfl, rfl, rfl⟩

theorem reference_args_have_no_override_witness :
    (implement_arg (.reference (.other 0))).override_setters = false :=
  (reference_args_have_no_override (.other 0)).2.2.1

/-- C9: the value setter `with_<name>` and the function setter
`with_<name>_fn` both assign the single `arg_<name>_fn` override slot, so
the most recently applied setter governs construction and the earlier
override is discarded entirely: applying the value setter after the
function setter leaves the same builder state as applying the value setter
alone (and vice versa), and the prepare step evaluates only the latest
override. -/
theorem setters_share_single_override_slot {α : Type} (v : α)
    (f : Catalog → Except InjectionError α) (b : ArgSlot α)
    (catGet : Catalog → Except InjectionError α) (cat : Catalog) :
    with_val v (with_fn f b) = with_val v b ∧
    with_fn f (with_val v b) = with_fn f b ∧
    prepareDependency (with_val v (with_fn f b)).arg_fn catGet cat = (.ok v, 0) ∧
    prepareDependency (with_fn f (with_val v b)).arg_fn catGet cat = (f cat, 0) :=
  ⟨rfl, rfl, rfl, rfl⟩

theorem setters_share_single_override_slot_witness :
    prepareDependency
      (with_val (5 : Nat) (with_fn (fun _ => Except.ok 8) ⟨none⟩)).arg_fn
      (fun _ => Except.ok 9) 0 = (Except.ok 5, 0) :=
  (setters_share_single_override_slot 5 (fun _ => Except.ok 8) ⟨none⟩
      (fun _ => Except.ok 9) 0).2.2.1

/-- C10: smart-pointer classification is purely syntactic on the first path
segment being the identifier `Arc`: `Arc<X>` is classified as a shared
handle and resolved via a catalog lookup for `X`, while the same type
written `std::sync::Arc<X>` is classified as an owned value and resolved
via a catalog lookup for the whole type `std::sync::Arc<X>`, cloned. -/
theorem smart_ptr_classification_is_first_segment_syntactic (x : RustType) :
    (is_smart_ptr (arcOf x) = true ∧ from_catalog (arcOf x) = .getHandle x) ∧
    (is_smart_ptr (stdSyncArcOf x) = false ∧
      from_catalog (stdSyncArcOf x) = .getClone (stdSyncArcOf x)) :=
  ⟨⟨rfl, rfl⟩, ⟨rfl, rfl⟩⟩

theorem smart_ptr_classification_witness :
    is_smart_ptr (stdSyncArcOf (.other 0)) = false ∧
    from_catalog (stdSyncArcOf (.other 0)) = .getClone (stdSyncArcOf (.other 0)) :=
  (smart_ptr_classification_is_first_segment_syntactic (.other 0)).2

/-! ## C1: race invariants -/

theorem scopeGet_singleton (s : ScopeState) (h : s.kind = .singleton) :
    scopeGet s = s.cached := by
  unfold scopeGet
  rw [h]

theorem scopeSet_kind (s : ScopeState) (h : AnyHandle) :
    (scopeSet s h).kind = s.kind := by
  unfold scopeSet
  rcases s with ⟨k, c⟩
  cases k
  · rfl
  · cases c <;> rfl

theorem scopeSet_cached_mono (s : ScopeState) (h c : AnyHandle)
    (hc : s.cached = some c) : (scopeSet s h).cached = some c := by
  unfold scopeSet
  rcases s with ⟨k, cc⟩
  cases k
  · exact hc
  · simp only at hc
    rw [hc]

theorem scopeSet_cached_cases (s : ScopeState) (h c : AnyHandle)
    (hc : (scopeSet s h).cached = some c) : s.cached = some c ∨ c = h := by
  unfold scopeSet at hc
  rcases s with ⟨k, cc⟩
  cases k
  · exact Or.inl hc
  · cases cc with
    | some c0 => exact Or.inl hc
    | none =>
      exact Or.inr (Option.some.inj hc).symm

theorem scopeSet_cached_isSome (s : ScopeState) (h : AnyHandle)
    (hk : s.kind = .singleton) : ∃ c, (scopeSet s h).cached = some c := by
  unfold scopeSet
  rcases s with ⟨k, cc⟩
  cases hk
  cases cc with
  | some c0 => exact ⟨c0, rfl⟩
  | none => exact ⟨h, rfl⟩

/-- Per-thread invariant of the race: a thread at the publish step holds its
own freshly built instance, and a finished thread saw a populated scope and
returned one of the two built instances, never panicking. -/
abbrev thInv (myId f1 f2 fown : Nat) (scope : ScopeState) (t : ThreadSt) : Prop :=
  (t.pc = 1 → t.localInst = some ⟨myId, fown⟩) ∧
  (t.pc = 2 →
    (∃ c, scope.cached = some c) ∧
    ∃ h : AnyHandle, t.result = some (.ok h) ∧ (h = ⟨myId, f1⟩ ∨ h = ⟨myId, f2⟩))

/-- Whole-system invariant of the two-thread race on an empty Singleton
scope: the scope stays a Singleton, anything cached is one of the two built
instances, and both threads satisfy their thread invariant. -/
abbrev raceInv (myId f1 f2 : Nat) (s : RaceState) : Prop :=
  s.scope.kind = .singleton ∧
  (∀ c, s.scope.cached = some c → c = ⟨myId, f1⟩ ∨ c = ⟨myId, f2⟩) ∧
  thInv myId f1 f2 f1 s.scope s.th1 ∧
  thInv myId f1 f2 f2 s.scope s.th2

theorem raceInv_init (myId f1 f2 : Nat) : raceInv myId f1 f2 raceInit := by
  refine ⟨rfl, ?_, ⟨?_, ?_⟩, ⟨?_, ?_⟩⟩
  · intro c hc
    exact Option.noConfusion hc
  · intro h
    exact absurd h (by decide)
  · intro h
    exact absurd h (by decide)
  · intro h
    exact absurd h (by decide)
  · intro h
    exact absurd h (by decide)

theorem threadStep_preserve (myId f1 f2 fa fb : Nat) (scope : ScopeState)
    (ta tb : ThreadSt)
    (hkind : scope.kind = .singleton)
    (hcached : ∀ c, scope.cached = some c → c = ⟨myId, f1⟩ ∨ c = ⟨myId, f2⟩)
    (hfa : fa = f1 ∨ fa = f2)
    (ha : thInv myId f1 f2 fa scope ta) (hb : thInv myId f1 f2 fb scope tb) :
    (threadStep myId fa scope ta).1.kind = .singleton ∧
    (∀ c, (threadStep myId fa scope ta).1.cached = some c →
      c = ⟨myId, f1⟩ ∨ c = ⟨myId, f2⟩) ∧
    thInv myId f1 f2 fa (threadStep myId fa scope ta).1 (threadStep myId fa scope ta).2 ∧
    thInv myId f1 f2 fb (threadStep myId fa scope ta).1 tb := by
  obtain ⟨pc, li, r⟩ := ta
  match pc with
  | 0 =>
    cases hg : scopeGet scope with
    | some c =>
      have hc : scope.cached = some c := by rw [← scopeGet_singleton scope hkind, hg]
      have hcc := hcached c hc
      have hid : c.typeId = myId := by rcases hcc with rfl | rfl <;> rfl
      have hd : downcast myId c = some c := by unfold downcast; rw [if_pos hid]
      simp only [threadStep, hg, hd]
      exact ⟨hkind, hcached,
        ⟨fun h => absurd h (by simp), fun _ => ⟨⟨c, hc⟩, ⟨c, ⟨rfl, hcc⟩⟩⟩⟩, hb⟩
    | none =>
      simp only [threadStep, hg]
      exact ⟨hkind, hcached, ⟨fun _ => rfl, fun h => absurd h (by simp)⟩, hb⟩
  | 1 =>
    have hli : li = some ⟨myId, fa⟩ := ha.1 rfl
    subst hli
    simp only [threadStep]
    have hfa2 : (⟨myId, fa⟩ : AnyHandle) = ⟨myId, f1⟩ ∨ (⟨myId, fa⟩ : AnyHandle) = ⟨myId, f2⟩ := by
      rcases hfa with rfl | rfl
      · exact Or.inl rfl
      · exact Or.inr rfl
    refine ⟨(scopeSet_kind scope _).trans hkind, ?_, ?_, ?_⟩
    · intro c hcset
      rcases scopeSet_cached_cases scope _ c hcset with hold | rfl
      · exact hcached c hold
      · exact hfa2
    · exact ⟨fun h => absurd h (by simp),
        fun _ => ⟨scopeSet_cached_isSome scope _ hkind, ⟨⟨myId, fa⟩, ⟨rfl, hfa2⟩⟩⟩⟩
    · refine ⟨hb.1, fun h2 => ?_⟩
      obtain ⟨⟨c, hc⟩, hres⟩ := hb.2 h2
      exact ⟨⟨c, scopeSet_cached_mono scope _ c hc⟩, hres⟩
  | (n + 2) =>
    simp only [threadStep]
    exact ⟨hkind, hcached, ha, hb⟩

theorem raceInv_step (myId f1 f2 : Nat) (s : RaceState) (i : Bool)
    (h : raceInv myId f1 f2 s) : raceInv myId f1 f2 (raceStep myId f1 f2 s i) := by
  obtain ⟨hkind, hcached, h1, h2⟩ := h
  cases i
  · obtain ⟨hk, hc, hself, hother⟩ :=
      threadStep_preserve myId f1 f2 f1 f2 s.scope s.th1 s.th2 hkind hcached
        (Or.inl rfl) h1 h2
    exact ⟨hk, hc, hself, hother⟩
  · obtain ⟨hk, hc, hself, hother⟩ :=
      threadStep_preserve myId f1 f2 f2 f1 s.scope s.th2 s.th1 hkind hcached
        (Or.inr rfl) h2 h1
    exact ⟨hk, hc, hother, hself⟩

theorem raceInv_run (myId f1 f2 : Nat) (sched : List Bool) (s : RaceState)
    (h : raceInv myId f1 f2 s) : raceInv myId f1 f2 (raceRun myId f1 f2 sched s) := by
  induction sched generalizing s with
  | nil => exact h
  | cons i rest ih => exact ih _ (raceInv_step myId f1 f2 s i h)

theorem threadStep_cached_mono (myId f : Nat) (scope : ScopeState) (t : ThreadSt)
    (c : AnyHandle) (hc : scope.cached = some c) :
    (threadStep myId f scope t).1.cached = some c := by
  obtain ⟨pc, li, r⟩ := t
  match pc with
  | 0 =>
    cases hg : scopeGet scope with
    | some c2 =>
      cases hd : downcast myId c2 with
      | some h2 => simp only [threadStep, hg, hd]; exact hc
      | none => simp only [threadStep, hg, hd]; exact hc
    | none => simp only [threadStep, hg]; exact hc
  | 1 =>
    cases li with
    | some inst =>
      simp only [threadStep]
      exact scopeSet_cached_mono scope inst c hc
    | none => simp only [threadStep]; exact hc
  | (n + 2) => simp only [threadStep]; exact hc

theorem raceStep_cached_mono (myId f1 f2 : Nat) (s : RaceState) (i : Bool)
    (c : AnyHandle) (hc : s.scope.cached = some c) :
    (raceStep myId f1 f2 s i).scope.cached = some c := by
  cases i
  · exact threadStep_cached_mono myId f1 s.scope s.th1 c hc
  · exact threadStep_cached_mono myId f2 s.scope s.th2 c hc

theorem raceRun_cached_mono (myId f1 f2 : Nat) (sched : List Bool) (s : RaceState)
    (c : AnyHandle) (hc : s.scope.cached = some c) :
    (raceRun myId f1 f2 sched s).scope.cached = some c := by
  induction sched generalizing s with
  | nil => exact hc
  | cons i rest ih => exact ih _ (raceStep_cached_mono myId f1 f2 s i c hc)

/-- C1: for every interleaving of two threads running the generated typed
`get` concurrently against an initially empty Singleton scope (the relaxed
variant: both may construct), anything the scope ever caches is one of the
two constructed instances, the cached instance is never replaced by any
further scheduling, every subsequent `get` returns exactly the cached
instance without building, each finished caller received (without error or
panic) one of the two constructed instances, and a finished caller implies
an instance has been published; two different instances are never cached. -/
theorem singleton_race_single_cached_instance (myId f1 f2 : Nat)
    (sched sched2 : List Bool) :
    (∀ c, (raceRun myId f1 f2 sched raceInit).scope.cached = some c →
      (c = ⟨myId, f1⟩ ∨ c = ⟨myId, f2⟩) ∧
      (raceRun myId f1 f2 sched2 (raceRun myId f1 f2 sched raceInit)).scope.cached
        = some c ∧
      ∀ (build : Catalog → Except InjectionError Val) (cat : Catalog),
        typedGet myId build cat (raceRun myId f1 f2 sched raceInit).scope
          = (.ok c, (raceRun myId f1 f2 sched raceInit).scope, 0)) ∧
    ((raceRun myId f1 f2 sched raceInit).th1.pc = 2 →
      (∃ c, (raceRun myId f1 f2 sched raceInit).scope.cached = some c) ∧
      ∃ h, (raceRun myId f1 f2 sched raceInit).th1.result = some (.ok h) ∧
        (h = ⟨myId, f1⟩ ∨ h = ⟨myId, f2⟩)) ∧
    ((raceRun myId f1 f2 sched raceInit).th2.pc = 2 →
      (∃ c, (raceRun myId f1 f2 sched raceInit).scope.cached = some c) ∧
      ∃ h, (raceRun myId f1 f2 sched raceInit).th2.result = some (.ok h) ∧
        (h = ⟨myId, f1⟩ ∨ h = ⟨myId, f2⟩)) := by
  have hinv := raceInv_run myId f1 f2 sched raceInit (raceInv_init myId f1 f2)
  obtain ⟨hkind, hcached, h1, h2⟩ := hinv
  refine ⟨fun c hc => ?_, h1.2, h2.2⟩
  have hcc := hcached c hc
  have hid : c.typeId = myId := by rcases hcc with rfl | rfl <;> rfl
  refine ⟨hcc, raceRun_cached_mono myId f1 f2 sched2 _ c hc, fun build cat => ?_⟩
  exact typedGet_of_cached myId build cat _ c
    (by rw [scopeGet_singleton _ hkind, hc]) hid

theorem singleton_race_single_cached_instance_witness :
    (raceRun 7 1 2 [false, true, false, true] raceInit).scope.cached
      = some ⟨7, 1⟩ ∧
    typedGet 7 (fun _ => Except.ok 99) 0
        (raceRun 7 1 2 [false, true, false, true] raceInit).scope
      = (.ok ⟨7, 1⟩, (raceRun 7 1 2 [false, true, false, true] raceInit).scope, 0) :=
  ⟨by decide,
    ((singleton_race_single_cached_instance 7 1 2 [false, true, false, true] []).1
        ⟨7, 1⟩ (by decide)).2.2 (fun _ => Except.ok 99) 0⟩

end Dill
